import Mathlib

/-!
# Verification of the beangulp import pipeline core

Shallow embedding, in Lean 4, of the parts of the `beangulp` repository that
the specification's claims are about:

* `beangulp/identify.py` — importer resolution (`identify`);
* `beangulp/similar.py`  — the heuristic duplicate comparator
  (`heuristic_comparator`, `amounts_map`);
* `beangulp/extract.py`  — deduplication (`mark_duplicate_entries` and its
  inner `entries_date_window_iterator`), batch ordering
  (`sort_extracted_entries`) and serialization (`print_extracted_entries`).

Modelling conventions:

* Python `datetime.date` values are modelled as proleptic Gregorian ordinals
  (`Int`), exactly the value of Python's `date.toordinal()`; a `timedelta` of
  `n` days is the integer `n`.
* Python `Decimal` amounts are modelled as exact rationals (`ℚ`).  The claims
  under scrutiny only involve short decimal fractions, far below the 28
  significant digits where `Decimal` context rounding could diverge from
  exact arithmetic.
* Python dicts used as entry metadata are mutable objects aliased by
  reference; to be able to talk about in-place mutation, entry metadata is
  modelled by an explicit store (`MetaStore`) mapping a metadata-map identity
  (the Python `id()` of the dict) to its contents, and an entry carries the
  identity `metaRef` of its metadata dict.
* Python's stable `list.sort(key=...)` is modelled by `List.insertionSort`
  with the pulled-back `≤` relation (insertion sort is stable and sorts,
  which is the entire contract `list.sort` provides).
* `bisect.bisect_left` / `bisect.bisect_right` are Python standard library
  functions (not repository code); they are modelled by their documented
  semantics on sorted lists: the number of elements strictly below
  (respectively, not above) the probe.
-/

namespace Beangulp

/-! ## Importer resolution — `beangulp/identify.py`

```python
def identify(importers, filepath):
    file = cache.get_file(filepath)
    match = [ importer for importer in importers if importer.identify(file) ]
    if len(match) > 1:
        match = [ importer.name() for importer in match ]
        raise Error('Document identified by more than one importer.', *match)
    return match[0] if match else None
```

An importer is modelled by its `name()` and its `identify()` predicate; the
`cache.get_file` wrapper only wraps the filesystem path in a memoizing
accessor, so `identify` is modelled as a predicate on the path itself.
A raised `beangulp.exceptions.Error` is modelled as the `Except.error`
branch carrying the message and the importer names passed to the
constructor. -/

structure Importer where
  name : String
  identifies : String → Bool

def identify (importers : List Importer) (filepath : String) :
    Except (String × List String) (Option Importer) :=
  let m := importers.filter (fun importer => importer.identifies filepath)
  if m.length > 1 then
    .error ("Document identified by more than one importer.", m.map (·.name))
  else
    .ok m.head?

end Beangulp

namespace Beangulp

/-- C1: Importer resolution over the matching sublist
`m = importers.filter (identifies · filepath)` (which lists the matching
importers in registration order): zero matches yield `ok none` (not an
error), exactly one match yields that importer, and two or more matches
yield an error carrying precisely the names of the matching importers in
registration order. -/
theorem identify_cases (importers : List Importer) (filepath : String) :
    (((importers.filter (fun i => i.identifies filepath)).length = 0 →
        identify importers filepath = .ok none) ∧
      (∀ i, importers.filter (fun i => i.identifies filepath) = [i] →
        identify importers filepath = .ok (some i)) ∧
      ((importers.filter (fun i => i.identifies filepath)).length > 1 →
        identify importers filepath =
          .error ("Document identified by more than one importer.",
            (importers.filter (fun i => i.identifies filepath)).map (·.name)))) := by
  refine ⟨?_, ?_, ?_⟩
  · intro h
    have hm : importers.filter (fun i => i.identifies filepath) = [] :=
      List.length_eq_zero.mp h
    simp [identify, hm]
  · intro i h
    simp [identify, h]
  · intro h
    have h' : ¬ (importers.filter (fun i => i.identifies filepath)).length ≤ 1 := by
      omega
    simp [identify, Nat.lt_iff_add_one_le] at h ⊢
    omega

/-- Witness for `identify_cases` at a concrete importer list: with exactly
one of three importers matching, resolution returns that importer. -/
theorem identify_cases_witness :
    identify
      [⟨"a", fun _ => false⟩, ⟨"b", fun _ => true⟩, ⟨"c", fun _ => false⟩]
      "doc.csv" = .ok (some ⟨"b", fun _ => true⟩) := by
  exact (identify_cases
    [⟨"a", fun _ => false⟩, ⟨"b", fun _ => true⟩, ⟨"c", fun _ => false⟩]
    "doc.csv").2.1 ⟨"b", fun _ => true⟩ rfl

end Beangulp

namespace Beangulp

/-! ## String ordering

Python compares strings lexicographically by character.  Lean's `String.<`
is the same relation, but its `Decidable` instance goes through UTF-8 byte
iterators that the kernel cannot evaluate, so the embedding compares the
underlying character lists directly. -/

/-- Lexicographic order on strings, as Python compares them: by the sequence
of characters. -/
def strLT (a b : String) : Prop := a.data < b.data

instance : DecidableRel strLT := fun a b =>
  inferInstanceAs (Decidable (a.data < b.data))

theorem strLT_trichotomy (a b : String) : strLT a b ∨ a = b ∨ strLT b a := by
  rcases lt_trichotomy a.data b.data with h | h | h
  · exact Or.inl h
  · refine Or.inr (Or.inl ?_)
    cases a; cases b; exact congrArg String.mk h
  · exact Or.inr (Or.inr h)

theorem strLT_trans {a b c : String} (h₁ : strLT a b) (h₂ : strLT b c) :
    strLT a c := lt_trans h₁ h₂

theorem strLT_asymm {a b : String} (h : strLT a b) : ¬ strLT b a :=
  lt_asymm h

theorem strLT_irrefl (a : String) : ¬ strLT a a := lt_irrefl a.data

end Beangulp

namespace Beangulp.Similar

/-! ## Heuristic duplicate comparator — `beangulp/similar.py`

The data model for this module: a `Transaction` has a date and a list of
postings; a posting has an account name, optional units (a `Decimal`
number, modelled as `ℚ`, and a currency) and possibly the
`interpolate.AUTOMATIC_META` marker in its metadata (postings created by
interpolation are skipped when summing amounts).  Other directive kinds
reach the comparator — which rejects them immediately — so a directive is
either a transaction or something else. -/

structure Amount where
  number : ℚ
  currency : String
deriving DecidableEq

structure Posting where
  account : String
  units : Option Amount
  /-- whether `interpolate.AUTOMATIC_META` is present in the posting's metadata -/
  automatic : Bool
deriving DecidableEq

structure Transaction where
  date : Int
  postings : List Posting
deriving DecidableEq

inductive Directive
  | txn (t : Transaction)
  | other (date : Int)
deriving DecidableEq

/-- An `(account, currency)` key of the summed-amounts map. -/
abbrev AccountKey := String × String

abbrev AmountsMap := List (AccountKey × ℚ)

/-- One `amounts[key] += number` step of the `collections.defaultdict`
accumulation in `amounts_map`. -/
def addToMap (amounts : AmountsMap) (key : AccountKey) (number : ℚ) :
    AmountsMap :=
  match amounts with
  | [] => [(key, number)]
  | (k, v) :: rest =>
    if k = key then (k, v + number) :: rest
    else (k, v) :: addToMap rest key number

/--
```python
def amounts_map(entry):
    amounts = collections.defaultdict(Decimal)
    for posting in entry.postings:
        if posting.meta and interpolate.AUTOMATIC_META in posting.meta:
            continue
        currency = isinstance(posting.units, amount.Amount) and posting.units.currency
        if isinstance(currency, str):
            key = (posting.account, currency)
            amounts[key] += posting.units.number
    return amounts
```
(The `amounts_map_cached` memoization wrapper is semantically the identity
for a pure function and is not modelled.) -/
def amounts_map (entry : Transaction) : AmountsMap :=
  entry.postings.foldl
    (fun amounts posting =>
      if posting.automatic then amounts
      else
        match posting.units with
        | some u => addToMap amounts (posting.account, u.currency) u.number
        | none => amounts)
    []

/-- Lookup in the summed-amounts map (`amounts[key]`; on the keys the
comparator uses, the key is always present). -/
def getAmount (amounts : AmountsMap) (key : AccountKey) : ℚ :=
  match amounts.find? (fun p => decide (p.1 = key)) with
  | some p => p.2
  | none => 0

/-- The order in which Python's `sorted()` lists `(account, currency)`
string pairs: lexicographic on the pair. -/
def keyLE (a b : AccountKey) : Prop :=
  strLT a.1 b.1 ∨ (a.1 = b.1 ∧ (strLT a.2 b.2 ∨ a.2 = b.2))

instance : DecidableRel keyLE := fun a b => by
  unfold keyLE; infer_instance

instance : IsTotal AccountKey keyLE where
  total a b := by
    rcases strLT_trichotomy a.1 b.1 with h | h | h
    · exact Or.inl (Or.inl h)
    · rcases strLT_trichotomy a.2 b.2 with h2 | h2 | h2
      · exact Or.inl (Or.inr ⟨h, Or.inl h2⟩)
      · exact Or.inl (Or.inr ⟨h, Or.inr h2⟩)
      · exact Or.inr (Or.inr ⟨h.symm, Or.inl h2⟩)
    · exact Or.inr (Or.inl h)

instance : IsTrans AccountKey keyLE where
  trans a b c h₁ h₂ := by
    rcases h₁ with h₁ | ⟨e₁, h₁⟩
    · rcases h₂ with h₂ | ⟨e₂, _⟩
      · exact Or.inl (strLT_trans h₁ h₂)
      · exact Or.inl (e₂ ▸ h₁)
    · rcases h₂ with h₂ | ⟨e₂, h₂⟩
      · exact Or.inl (e₁ ▸ h₂)
      · refine Or.inr ⟨e₁.trans e₂, ?_⟩
        rcases h₁ with h₁ | h₁
        · rcases h₂ with h₂ | h₂
          · exact Or.inl (strLT_trans h₁ h₂)
          · exact Or.inl (h₂ ▸ h₁)
        · rcases h₂ with h₂ | h₂
          · exact Or.inl (h₁ ▸ h₂)
          · exact Or.inr (h₁.trans h₂)

/-- `sorted(set(amounts1) & set(amounts2))`: the distinct common keys of
the two maps, in ascending lexicographic order. -/
def common_keys (amounts1 amounts2 : AmountsMap) : List AccountKey :=
  List.insertionSort keyLE
    (((amounts1.map Prod.fst).filter
        (fun k => decide (k ∈ amounts2.map Prod.fst))).dedup)

/-- Outcome of the `for key in sorted(common_keys):` loop of the
comparator: `satisfied` models `break` (a key satisfied closeness),
`rejected` models the `return False` executed when `diff == ZERO`, and
`exhausted` models the loop's `else:` clause (no key satisfied). -/
inductive ScanOutcome
  | satisfied
  | rejected
  | exhausted
deriving DecidableEq

/--
```python
for key in sorted(common_keys):
    number1 = amounts1[key]
    number2 = amounts2[key]
    if number1 == ZERO and number2 == ZERO:
        break
    diff = abs((number1 / number2) if number2 != ZERO else (number2 / number1))
    if diff == ZERO:
        return False
    if diff < ONE:
        diff = ONE / diff
    if (diff - ONE) < epsilon:
        break
else:
    return False
```
-/
def scan_keys (amounts1 amounts2 : AmountsMap) (epsilon : ℚ) :
    List AccountKey → ScanOutcome
  | [] => .exhausted
  | key :: keys =>
    let number1 := getAmount amounts1 key
    let number2 := getAmount amounts2 key
    if number1 = 0 ∧ number2 = 0 then .satisfied
    else
      let diff := |if number2 ≠ 0 then number1 / number2 else number2 / number1|
      if diff = 0 then .rejected
      else
        let diff2 := if diff < 1 then 1 / diff else diff
        if diff2 - 1 < epsilon then .satisfied
        else scan_keys amounts1 amounts2 epsilon keys

/-- `accounts1.issubset(accounts2)` on the account sets of the two
transactions' postings. -/
def subset_accounts (t1 t2 : Transaction) : Bool :=
  (t1.postings.map (·.account)).all
    (fun a => decide (a ∈ t2.postings.map (·.account)))

/-- The comparator produced by `heuristic_comparator(max_date_delta,
epsilon)` applied to two directives.  `beangulp.importer.Importer.cmp`,
used by the default `deduplicate`, is `heuristic_comparator()`, i.e. both
options `none`. -/
def heuristic_comparator (max_date_delta : Option Int) (epsilonArg : Option ℚ)
    (entry1 entry2 : Directive) : Bool :=
  let epsilon := epsilonArg.getD (5 / 100)
  match entry1, entry2 with
  | .txn t1, .txn t2 =>
    (match max_date_delta with
     | some bound =>
       decide ((if t1.date > t2.date then t1.date - t2.date
                else t2.date - t1.date) ≤ bound)
     | none => true) &&
    (let amounts1 := amounts_map t1
     let amounts2 := amounts_map t2
     match scan_keys amounts1 amounts2 epsilon (common_keys amounts1 amounts2) with
     | .satisfied => subset_accounts t1 t2 || subset_accounts t2 t1
     | _ => false)
  | _, _ => false

/-- The per-key closeness test of the scan, as a predicate on one common
key: both summed amounts exactly zero, or (both nonzero and) the ratio of
the larger magnitude to the smaller, minus one, strictly below epsilon. -/
def key_closeness (amounts1 amounts2 : AmountsMap) (epsilon : ℚ)
    (key : AccountKey) : Bool :=
  let n1 := getAmount amounts1 key
  let n2 := getAmount amounts2 key
  if n1 = 0 ∧ n2 = 0 then true
  else if n1 = 0 ∨ n2 = 0 then false
  else
    let diff := |n1 / n2|
    let diff2 := if diff < 1 then 1 / diff else diff
    decide (diff2 - 1 < epsilon)

/-- A common key on which exactly one of the two summed amounts is zero:
the scan's `diff == ZERO` case, which aborts the comparator with
`return False`. -/
def key_one_side_zero (amounts1 amounts2 : AmountsMap) (key : AccountKey) :
    Bool :=
  let n1 := getAmount amounts1 key
  let n2 := getAmount amounts2 key
  decide ((n1 = 0 ∧ n2 ≠ 0) ∨ (n1 ≠ 0 ∧ n2 = 0))

/-- One step of the key scan, characterized by the two per-key
predicates. -/
theorem scan_keys_cons (amounts1 amounts2 : AmountsMap) (epsilon : ℚ)
    (key : AccountKey) (keys : List AccountKey) :
    scan_keys amounts1 amounts2 epsilon (key :: keys) =
      (if key_one_side_zero amounts1 amounts2 key then .rejected
       else if key_closeness amounts1 amounts2 epsilon key then .satisfied
       else scan_keys amounts1 amounts2 epsilon keys) := by
  by_cases hz1 : getAmount amounts1 key = 0
  · by_cases hz2 : getAmount amounts2 key = 0
    · -- both zero: the scan breaks with `satisfied`.
      simp [scan_keys, key_one_side_zero, key_closeness, hz1, hz2]
    · -- n1 = 0, n2 ≠ 0: diff = |n1 / n2| = 0, scan returns `rejected`.
      simp [scan_keys, key_one_side_zero, key_closeness, hz1, hz2]
  · by_cases hz2 : getAmount amounts2 key = 0
    · -- n2 = 0, n1 ≠ 0: diff = |n2 / n1| = 0, scan returns `rejected`.
      simp [scan_keys, key_one_side_zero, key_closeness, hz1, hz2]
    · -- both nonzero: the ratio test decides between `satisfied` and
      -- moving on to the next key.
      have hd : ¬ |getAmount amounts1 key / getAmount amounts2 key| = 0 := by
        simp [abs_eq_zero, div_eq_zero_iff, hz1, hz2]
      simp [scan_keys, key_one_side_zero, key_closeness, hz1, hz2, hd]

/-- A key that satisfies closeness never has exactly one side zero. -/
theorem one_side_zero_false_of_closeness (amounts1 amounts2 : AmountsMap)
    (epsilon : ℚ) (key : AccountKey)
    (h : key_closeness amounts1 amounts2 epsilon key = true) :
    key_one_side_zero amounts1 amounts2 key = false := by
  by_cases hz1 : getAmount amounts1 key = 0 <;>
    by_cases hz2 : getAmount amounts2 key = 0 <;>
      simp_all [key_closeness, key_one_side_zero, hz1, hz2]

/-- With the default options, the comparator on two transactions is the
key scan followed by the account-subset requirement. -/
theorem comparator_eq_scan (t1 t2 : Transaction)
    (hscan : scan_keys (amounts_map t1) (amounts_map t2) (5 / 100)
        (common_keys (amounts_map t1) (amounts_map t2)) = .satisfied) :
    heuristic_comparator none none (.txn t1) (.txn t2) =
      (subset_accounts t1 t2 || subset_accounts t2 t1) := by
  simp only [heuristic_comparator, Option.getD]
  rw [hscan]
  simp

/-- If the scan does not end in `satisfied`, the comparator returns
`false`. -/
theorem comparator_eq_false_of_scan (t1 t2 : Transaction)
    (hscan : scan_keys (amounts_map t1) (amounts_map t2) (5 / 100)
        (common_keys (amounts_map t1) (amounts_map t2)) ≠ .satisfied) :
    heuristic_comparator none none (.txn t1) (.txn t2) = false := by
  simp only [heuristic_comparator, Option.getD]
  cases h : scan_keys (amounts_map t1) (amounts_map t2) (5 / 100)
      (common_keys (amounts_map t1) (amounts_map t2)) with
  | satisfied => exact absurd h hscan
  | rejected => simp
  | exhausted => simp

/-- If every key of a prefix of the scanned list is free of the
one-side-zero rejection and the next key satisfies closeness, the scan
breaks with `satisfied`. -/
theorem scan_keys_satisfied_of_prefix (amounts1 amounts2 : AmountsMap)
    (epsilon : ℚ) :
    ∀ (pre : List AccountKey) (k : AccountKey) (post : List AccountKey),
      (∀ k' ∈ pre, key_one_side_zero amounts1 amounts2 k' = false) →
      key_closeness amounts1 amounts2 epsilon k = true →
      scan_keys amounts1 amounts2 epsilon (pre ++ k :: post) = .satisfied
  | [], k, post, _, hcl => by
    rw [List.nil_append, scan_keys_cons,
      one_side_zero_false_of_closeness amounts1 amounts2 epsilon k hcl]
    simp [hcl]
  | k' :: pre, k, post, hpre, hcl => by
    rw [List.cons_append, scan_keys_cons, hpre k' (List.mem_cons_self k' pre)]
    by_cases h : key_closeness amounts1 amounts2 epsilon k' = true
    · simp [h]
    · simp only [Bool.if_false_left, Bool.false_eq_true, if_false]
      rw [if_neg (by simpa using h)]
      exact scan_keys_satisfied_of_prefix amounts1 amounts2 epsilon pre k post
        (fun x hx => hpre x (List.mem_cons_of_mem k' hx)) hcl

end Beangulp.Similar

namespace Beangulp.Similar

/-- Claim C6: when all common `(account, currency)` keys have summed
amounts exactly zero on both sides (and there is at least one common key),
the first scanned key hits the both-zero special case, scanning stops with
closeness satisfied, and — provided one transaction's account set is a
subset of the other's — the comparator declares a match, despite the
ratio being undefined there. -/
theorem zero_zero_amounts_match (t1 t2 : Transaction)
    (hne : common_keys (amounts_map t1) (amounts_map t2) ≠ [])
    (hz : ∀ k ∈ common_keys (amounts_map t1) (amounts_map t2),
        getAmount (amounts_map t1) k = 0 ∧ getAmount (amounts_map t2) k = 0)
    (hsub : (subset_accounts t1 t2 || subset_accounts t2 t1) = true) :
    heuristic_comparator none none (.txn t1) (.txn t2) = true := by
  obtain ⟨k, ks, hck⟩ :
      ∃ k ks, common_keys (amounts_map t1) (amounts_map t2) = k :: ks := by
    cases h : common_keys (amounts_map t1) (amounts_map t2) with
    | nil => exact absurd h hne
    | cons a l => exact ⟨a, l, rfl⟩
  have h0 := hz k (by rw [hck]; exact List.mem_cons_self k ks)
  have hcl : key_closeness (amounts_map t1) (amounts_map t2) (5 / 100) k = true := by
    simp [key_closeness, h0.1, h0.2]
  have hscan : scan_keys (amounts_map t1) (amounts_map t2) (5 / 100)
      (common_keys (amounts_map t1) (amounts_map t2)) = .satisfied := by
    rw [hck, scan_keys_cons,
      one_side_zero_false_of_closeness _ _ _ _ hcl]
    simp [hcl]
  rw [comparator_eq_scan t1 t2 hscan, hsub]

/-- Witness for `zero_zero_amounts_match`: a transaction whose two
postings on account `A` cancel to zero against a transaction with an
explicit zero posting on `A` — matched. -/
theorem zero_zero_amounts_match_witness :
    heuristic_comparator none none
      (.txn ⟨0, [⟨"A", some ⟨5, "USD"⟩, false⟩, ⟨"A", some ⟨-5, "USD"⟩, false⟩]⟩)
      (.txn ⟨0, [⟨"A", some ⟨0, "USD"⟩, false⟩]⟩) = true := by
  have hm1 : amounts_map ⟨0, [⟨"A", some ⟨5, "USD"⟩, false⟩,
      ⟨"A", some ⟨-5, "USD"⟩, false⟩]⟩ = [(("A", "USD"), 0)] := by
    simp [amounts_map, addToMap]
  have hm2 : amounts_map ⟨0, [⟨"A", some ⟨0, "USD"⟩, false⟩]⟩
      = [(("A", "USD"), 0)] := by
    simp [amounts_map, addToMap]
  refine zero_zero_amounts_match _ _ ?_ ?_ ?_
  · rw [hm1, hm2]
    simp [common_keys, List.insertionSort, List.orderedInsert]
  · rw [hm1, hm2]
    intro k hk
    simp only [common_keys, List.map_cons, List.map_nil] at hk
    simp [List.insertionSort, List.orderedInsert] at hk
    subst hk
    simp [getAmount]
  · simp [subset_accounts]

/-- Claim C7 (amended): the comparator declares a match whenever some
common key satisfies closeness and no key scanned before it (in the
ascending key order) has exactly one side zero, given the account-subset
condition; a one-side-zero key scanned earlier instead aborts the
comparator with no match. -/
theorem satisfying_key_matches (t1 t2 : Transaction)
    (pre post : List AccountKey) (k : AccountKey)
    (hsplit : common_keys (amounts_map t1) (amounts_map t2) = pre ++ k :: post)
    (hpre : ∀ k' ∈ pre,
        key_one_side_zero (amounts_map t1) (amounts_map t2) k' = false)
    (hcl : key_closeness (amounts_map t1) (amounts_map t2) (5 / 100) k = true)
    (hsub : (subset_accounts t1 t2 || subset_accounts t2 t1) = true) :
    heuristic_comparator none none (.txn t1) (.txn t2) = true := by
  have hscan : scan_keys (amounts_map t1) (amounts_map t2) (5 / 100)
      (common_keys (amounts_map t1) (amounts_map t2)) = .satisfied := by
    rw [hsplit]
    exact scan_keys_satisfied_of_prefix _ _ _ pre k post hpre hcl
  rw [comparator_eq_scan t1 t2 hscan, hsub]

/-- Witness for `satisfying_key_matches`: two identical one-posting
transactions match (their single common key satisfies closeness with an
empty scanned prefix). -/
theorem satisfying_key_matches_witness :
    heuristic_comparator none none
      (.txn ⟨0, [⟨"A", some ⟨7, "USD"⟩, false⟩]⟩)
      (.txn ⟨1, [⟨"A", some ⟨7, "USD"⟩, false⟩]⟩) = true := by
  have hm1 : amounts_map ⟨0, [⟨"A", some ⟨7, "USD"⟩, false⟩]⟩
      = [(("A", "USD"), 7)] := by
    simp [amounts_map, addToMap]
  have hm2 : amounts_map ⟨1, [⟨"A", some ⟨7, "USD"⟩, false⟩]⟩
      = [(("A", "USD"), 7)] := by
    simp [amounts_map, addToMap]
  refine satisfying_key_matches _ _ [] [] ("A", "USD") ?_ ?_ ?_ ?_
  · rw [hm1, hm2]
    simp [common_keys, List.insertionSort, List.orderedInsert]
  · intro k' hk'
    simp at hk'
  · rw [hm1, hm2]
    have hg : getAmount [(("A", "USD"), (7 : ℚ))] ("A", "USD") = 7 := rfl
    simp only [key_closeness, hg]
    norm_num [abs]
  · simp [subset_accounts]

/-- New-side transaction of the C7 counterexample: amounts sum to `0` on
`(Assets:A, USD)` (two cancelling postings) and `7` on
`(Assets:B, USD)`. -/
def c7new : Transaction :=
  ⟨0, [⟨"Assets:A", some ⟨3, "USD"⟩, false⟩,
       ⟨"Assets:A", some ⟨-3, "USD"⟩, false⟩,
       ⟨"Assets:B", some ⟨7, "USD"⟩, false⟩]⟩

/-- Existing-side transaction of the C7 counterexample: `5` on
`(Assets:A, USD)` and `7` on `(Assets:B, USD)`. -/
def c7existing : Transaction :=
  ⟨0, [⟨"Assets:A", some ⟨5, "USD"⟩, false⟩,
       ⟨"Assets:B", some ⟨7, "USD"⟩, false⟩]⟩

/-- Counterexample to claim C7 as stated: the common key
`(Assets:B, USD)` satisfies closeness (equal amounts `7`), the account
sets are equal, yet the comparator returns no match — the earlier-sorted
key `(Assets:A, USD)` has amounts `0` vs `5`, and its `diff == ZERO` case
aborts the scan with `return False` before the satisfying key is ever
examined. -/
theorem satisfying_key_not_sufficient_counterexample :
    ("Assets:B", "USD") ∈ common_keys (amounts_map c7new) (amounts_map c7existing) ∧
    key_closeness (amounts_map c7new) (amounts_map c7existing) (5 / 100)
      ("Assets:B", "USD") = true ∧
    (subset_accounts c7new c7existing || subset_accounts c7existing c7new) = true ∧
    heuristic_comparator none none (.txn c7new) (.txn c7existing) = false := by
  have hm1 : amounts_map c7new
      = [(("Assets:A", "USD"), 0), (("Assets:B", "USD"), 7)] := by
    simp [c7new, amounts_map, addToMap]
  have hm2 : amounts_map c7existing
      = [(("Assets:A", "USD"), 5), (("Assets:B", "USD"), 7)] := by
    simp [c7existing, amounts_map, addToMap]
  have hck : common_keys (amounts_map c7new) (amounts_map c7existing)
      = [("Assets:A", "USD"), ("Assets:B", "USD")] := by
    rw [hm1, hm2]
    decide
  refine ⟨by rw [hck]; simp, ?_, ?_, ?_⟩
  · rw [hm1, hm2]
    have hg1 : getAmount [(("Assets:A", "USD"), (0 : ℚ)), (("Assets:B", "USD"), 7)]
        ("Assets:B", "USD") = 7 := rfl
    have hg2 : getAmount [(("Assets:A", "USD"), (5 : ℚ)), (("Assets:B", "USD"), 7)]
        ("Assets:B", "USD") = 7 := rfl
    simp only [key_closeness, hg1, hg2]
    norm_num [abs]
  · simp [subset_accounts, c7new, c7existing]
  · refine comparator_eq_false_of_scan _ _ ?_
    rw [hck, scan_keys_cons]
    have hoz : key_one_side_zero (amounts_map c7new) (amounts_map c7existing)
        ("Assets:A", "USD") = true := by
      rw [hm1, hm2]
      have hg1 : getAmount [(("Assets:A", "USD"), (0 : ℚ)), (("Assets:B", "USD"), 7)]
          ("Assets:A", "USD") = 0 := rfl
      have hg2 : getAmount [(("Assets:A", "USD"), (5 : ℚ)), (("Assets:B", "USD"), 7)]
          ("Assets:A", "USD") = 5 := rfl
      simp only [key_one_side_zero, hg1, hg2]
      norm_num
    rw [hoz]
    simp

end Beangulp.Similar

namespace Beangulp.Similar

/-- Claim C5: with the default epsilon `0.05`, the closeness test on a
common key is the strict inequality `ratio - 1 < epsilon` where `ratio` is
the larger summed magnitude over the smaller: on two single-posting
transactions holding `n` and `n * r` (`0 < n`, `1 ≤ r`) on the same
account and currency, the comparator matches exactly when
`r - 1 < 5 / 100` — so a ratio of exactly `1.049` matches and a ratio of
exactly `1.051` does not. -/
theorem ratio_closeness_strict (acct curr : String) (d1 d2 : Int) (n r : ℚ)
    (hn : 0 < n) (hr : 1 ≤ r) :
    heuristic_comparator none none
      (.txn ⟨d1, [⟨acct, some ⟨n, curr⟩, false⟩]⟩)
      (.txn ⟨d2, [⟨acct, some ⟨n * r, curr⟩, false⟩]⟩) =
      decide (r - 1 < 5 / 100) := by
  have hm1 : amounts_map ⟨d1, [⟨acct, some ⟨n, curr⟩, false⟩]⟩
      = [((acct, curr), n)] := by
    simp [amounts_map, addToMap]
  have hm2 : amounts_map ⟨d2, [⟨acct, some ⟨n * r, curr⟩, false⟩]⟩
      = [((acct, curr), n * r)] := by
    simp [amounts_map, addToMap]
  have hr0 : (0 : ℚ) < r := lt_of_lt_of_le zero_lt_one hr
  have hnne : n ≠ 0 := ne_of_gt hn
  have hrne : r ≠ 0 := ne_of_gt hr0
  have hck : common_keys (amounts_map ⟨d1, [⟨acct, some ⟨n, curr⟩, false⟩]⟩)
      (amounts_map ⟨d2, [⟨acct, some ⟨n * r, curr⟩, false⟩]⟩)
      = [(acct, curr)] := by
    rw [hm1, hm2]
    simp [common_keys, List.insertionSort, List.orderedInsert]
  have hg1 : getAmount [((acct, curr), n)] (acct, curr) = n := by
    simp [getAmount]
  have hg2 : getAmount [((acct, curr), n * r)] (acct, curr) = n * r := by
    simp [getAmount]
  have hcl : key_closeness (amounts_map ⟨d1, [⟨acct, some ⟨n, curr⟩, false⟩]⟩)
      (amounts_map ⟨d2, [⟨acct, some ⟨n * r, curr⟩, false⟩]⟩) (5 / 100)
      (acct, curr) = decide (r - 1 < 5 / 100) := by
    rw [hm1, hm2]
    simp only [key_closeness, hg1, hg2]
    rw [if_neg (by rintro ⟨h, -⟩; exact hnne h)]
    rw [if_neg (by
      rintro (h | h)
      · exact hnne h
      · exact (mul_ne_zero hnne hrne) h)]
    have hd : |n / (n * r)| = 1 / r := by
      have hq : n / (n * r) = 1 / r := by
        field_simp
      rw [hq, abs_of_pos (by positivity)]
    rw [hd]
    rcases eq_or_lt_of_le hr with he | hlt
    · rw [← he]
      norm_num
    · have h1r : 1 / r < 1 := by
        rw [div_lt_one hr0]
        exact hlt
      rw [if_pos h1r, one_div_one_div]
  have hoz : key_one_side_zero
      (amounts_map ⟨d1, [⟨acct, some ⟨n, curr⟩, false⟩]⟩)
      (amounts_map ⟨d2, [⟨acct, some ⟨n * r, curr⟩, false⟩]⟩)
      (acct, curr) = false := by
    rw [hm1, hm2]
    simp only [key_one_side_zero, hg1, hg2]
    simp [hnne, hrne]
  by_cases hclose : r - 1 < 5 / 100
  · have hscan : scan_keys
        (amounts_map ⟨d1, [⟨acct, some ⟨n, curr⟩, false⟩]⟩)
        (amounts_map ⟨d2, [⟨acct, some ⟨n * r, curr⟩, false⟩]⟩) (5 / 100)
        (common_keys (amounts_map ⟨d1, [⟨acct, some ⟨n, curr⟩, false⟩]⟩)
          (amounts_map ⟨d2, [⟨acct, some ⟨n * r, curr⟩, false⟩]⟩))
        = .satisfied := by
      rw [hck, scan_keys_cons, hoz, hcl]
      simp [hclose]
    rw [comparator_eq_scan _ _ hscan]
    simp [subset_accounts, hclose]
  · have hscan : scan_keys
        (amounts_map ⟨d1, [⟨acct, some ⟨n, curr⟩, false⟩]⟩)
        (amounts_map ⟨d2, [⟨acct, some ⟨n * r, curr⟩, false⟩]⟩) (5 / 100)
        (common_keys (amounts_map ⟨d1, [⟨acct, some ⟨n, curr⟩, false⟩]⟩)
          (amounts_map ⟨d2, [⟨acct, some ⟨n * r, curr⟩, false⟩]⟩))
        = .exhausted := by
      rw [hck, scan_keys_cons, hoz, hcl]
      simp [hclose, scan_keys]
    rw [comparator_eq_false_of_scan _ _ (by rw [hscan]; intro h; cases h)]
    simp [hclose]

/-- Witness for `ratio_closeness_strict`: amounts `100` against `104.9`
(ratio exactly `1.049`) match; amounts `100` against `105.1` (ratio
exactly `1.051`) do not. -/
theorem ratio_closeness_strict_witness :
    heuristic_comparator none none
      (.txn ⟨0, [⟨"A", some ⟨100, "USD"⟩, false⟩]⟩)
      (.txn ⟨0, [⟨"A", some ⟨100 * (1049 / 1000), "USD"⟩, false⟩]⟩) = true ∧
    heuristic_comparator none none
      (.txn ⟨0, [⟨"A", some ⟨100, "USD"⟩, false⟩]⟩)
      (.txn ⟨0, [⟨"A", some ⟨100 * (1051 / 1000), "USD"⟩, false⟩]⟩) = false := by
  constructor
  · rw [ratio_closeness_strict "A" "USD" 0 0 100 (1049 / 1000)
      (by norm_num) (by norm_num)]
    norm_num
  · rw [ratio_closeness_strict "A" "USD" 0 0 100 (1051 / 1000)
      (by norm_num) (by norm_num)]
    norm_num

end Beangulp.Similar

namespace Beangulp.Extract

/-! ## Deduplication — `beangulp/extract.py`

Entries here are modelled by what `mark_duplicate_entries` reads of them:
their date and the identity of their (mutable) metadata dict.  A
`MetaStore` maps each metadata-dict identity to the dict's current
contents; writing through `writeStore` models in-place mutation of the
dict shared by every reference to the same entry.  The comparison
callback is an opaque parameter, exactly as in the source. -/

/-- A metadata value: the `__duplicate__` field holds `True` or the
matched entry (modelled by the identity of that entry's metadata dict);
`filename` and `lineno` provenance fields hold a string and an
integer. -/
inductive MetaVal
  | boolean (b : Bool)
  | entryRef (r : Nat)
  | str (s : String)
  | int (i : Int)
deriving DecidableEq

/-- The contents of one metadata dict. -/
abbrev Meta := List (String × MetaVal)

/-- An entry: its date (as a Gregorian ordinal) and the identity of its
metadata dict. -/
structure Entry where
  date : Int
  metaRef : Nat
deriving DecidableEq

/-- The heap of metadata dicts, indexed by dict identity. -/
abbrev MetaStore := Nat → Meta

/-- `extract.DUPLICATE`, the metadata field marking a duplicate. -/
def DUPLICATE : String := "__duplicate__"

/-- `meta[key] = value` on one dict: replace the value under `key`, or
append the key. -/
def setKey (m : Meta) (key : String) (value : MetaVal) : Meta :=
  match m with
  | [] => [(key, value)]
  | (k, v) :: rest =>
    if k = key then (k, value) :: rest
    else (k, v) :: setKey rest key value

/-- `meta.pop(key, ...)` removal part: the dict without `key`. -/
def delKey (m : Meta) (key : String) : Meta :=
  m.filter (fun p => decide (p.1 ≠ key))

/-- `meta.get(key)`. -/
def getKey? (m : Meta) (key : String) : Option MetaVal :=
  (m.find? (fun p => decide (p.1 = key))).map Prod.snd

/-- Mutation of the dict with identity `r`. -/
def writeStore (store : MetaStore) (r : Nat) (m : Meta) : MetaStore :=
  fun q => if q = r then m else store q

/-- Python `bisect.bisect_left(dates, x)` on a sorted list: the number of
elements strictly below `x` (the standard library's documented insertion
point). -/
def bisect_left (dates : List Int) (x : Int) : Nat :=
  dates.countP (fun d => decide (d < x))

/-- Python `bisect.bisect_right(dates, x)` on a sorted list: the number of
elements not above `x`. -/
def bisect_right (dates : List Int) (x : Int) : Nat :=
  dates.countP (fun d => decide (d ≤ x))

/-- The by-date order used by `existing.sort(key=operator.attrgetter('date'))`. -/
def dateLE (a b : Entry) : Prop := a.date ≤ b.date

instance : DecidableRel dateLE := fun a b =>
  inferInstanceAs (Decidable (a.date ≤ b.date))

instance : IsTotal Entry dateLE := ⟨fun a b => le_total a.date b.date⟩

instance : IsTrans Entry dateLE := ⟨fun _ _ _ h₁ h₂ => le_trans h₁ h₂⟩

/-- `existing.sort(key=operator.attrgetter('date'))`: Python's stable
sort, modelled by (stable) insertion sort. -/
def sort_by_date (entries : List Entry) : List Entry :=
  List.insertionSort dateLE entries

/--
```python
def entries_date_window_iterator(date):
    lo = bisect.bisect_left(dates, date - window)
    hi = bisect.bisect_right(dates, date + window)
    for i in range(lo, hi):
        yield existing[i]
```
where `dates = [entry.date for entry in existing]` and `existing` has
been sorted by date. -/
def entries_date_window_iterator (existing : List Entry) (window : Int)
    (date : Int) : List Entry :=
  let dates := existing.map (·.date)
  let lo := bisect_left dates (date - window)
  let hi := bisect_right dates (date + window)
  (existing.drop lo).take (hi - lo)

/-- The body of the inner loop of `mark_duplicate_entries`:
`if compare(entry, target): entry.meta[DUPLICATE] = target` — an in-place
write to the metadata dict of `entry`, storing the matched existing
entry. -/
def mark_target_step (compare : Entry → Entry → Bool) (entry : Entry)
    (st : MetaStore) (target : Entry) : MetaStore :=
  if compare entry target then
    writeStore st entry.metaRef
      (setKey (st entry.metaRef) DUPLICATE (.entryRef target.metaRef))
  else st

/-- The body of the outer loop of `mark_duplicate_entries`: compare one
newly extracted entry against every existing entry in its date window. -/
def mark_entry_step (existingSorted : List Entry) (window : Int)
    (compare : Entry → Entry → Bool) (st : MetaStore) (entry : Entry) :
    MetaStore :=
  (entries_date_window_iterator existingSorted window entry.date).foldl
    (mark_target_step compare entry) st

/--
```python
def mark_duplicate_entries(entries, existing, window, compare):
    existing.sort(key=operator.attrgetter('date'))
    dates = [entry.date for entry in existing]

    def entries_date_window_iterator(date):
        lo = bisect.bisect_left(dates, date - window)
        hi = bisect.bisect_right(dates, date + window)
        for i in range(lo, hi):
            yield existing[i]

    for entry in entries:
        for target in entries_date_window_iterator(entry.date):
            if compare(entry, target):
                entry.meta[DUPLICATE] = target
```
The function returns the final metadata store together with the new
contents of the caller's `existing` list (which `existing.sort(...)`
replaces in place). -/
def mark_duplicate_entries (entries existing : List Entry) (window : Int)
    (compare : Entry → Entry → Bool) (store : MetaStore) :
    MetaStore × List Entry :=
  let existingSorted := sort_by_date existing
  (entries.foldl (mark_entry_step existingSorted window compare) store,
    existingSorted)

end Beangulp.Extract

namespace Beangulp.Extract

/-- On a list sorted by date, the slice between the two bisection points
for `x` and `y` is exactly the sublist of entries dated within
`[x, y]`. -/
theorem sorted_slice_eq_filter (x y : Int) (hxy : x ≤ y) :
    ∀ (l : List Entry), l.Pairwise (fun a b => a.date ≤ b.date) →
      (l.drop (l.countP (fun e => decide (e.date < x)))).take
          (l.countP (fun e => decide (e.date ≤ y)) -
            l.countP (fun e => decide (e.date < x)))
        = l.filter (fun e => decide (x ≤ e.date) && decide (e.date ≤ y))
  | [], _ => by simp
  | a :: t, hp => by
    have hfa : ∀ b ∈ t, a.date ≤ b.date := (List.pairwise_cons.mp hp).1
    have hpt : t.Pairwise (fun a b => a.date ≤ b.date) :=
      (List.pairwise_cons.mp hp).2
    by_cases hax : a.date < x
    · have hay : a.date ≤ y := le_of_lt (lt_of_lt_of_le hax hxy)
      rw [List.countP_cons_of_pos (fun e => decide (e.date < x)) t
          (by simpa using hax),
        List.countP_cons_of_pos (fun e => decide (e.date ≤ y)) t
          (by simpa using hay),
        List.filter_cons_of_neg (by simp [not_le.mpr hax])]
      rw [List.drop_succ_cons, Nat.add_sub_add_right]
      exact sorted_slice_eq_filter x y hxy t hpt
    · have hxa : x ≤ a.date := not_lt.mp hax
      have hc1 : (a :: t).countP (fun e => decide (e.date < x)) = 0 := by
        rw [List.countP_eq_zero]
        intro b hb
        rcases List.mem_cons.mp hb with rfl | hb
        · simpa using hax
        · simpa using not_lt.mpr (le_trans hxa (hfa b hb))
      have hct : t.countP (fun e => decide (e.date < x)) = 0 := by
        rw [List.countP_eq_zero]
        intro b hb
        simpa using not_lt.mpr (le_trans hxa (hfa b hb))
      rw [hc1, List.drop_zero, Nat.sub_zero]
      by_cases hay : a.date ≤ y
      · rw [List.countP_cons_of_pos _ _ (by simpa using hay),
          List.filter_cons_of_pos (by simp [hxa, hay]),
          List.take_succ_cons]
        have ih := sorted_slice_eq_filter x y hxy t hpt
        rw [hct, List.drop_zero, Nat.sub_zero] at ih
        rw [ih]
      · have hya : y < a.date := not_le.mp hay
        have hc2 : (a :: t).countP (fun e => decide (e.date ≤ y)) = 0 := by
          rw [List.countP_eq_zero]
          intro b hb
          rcases List.mem_cons.mp hb with rfl | hb
          · simpa using hay
          · simpa using not_le.mpr (lt_of_lt_of_le hya (hfa b hb))
        have hf : (a :: t).filter
            (fun e => decide (x ≤ e.date) && decide (e.date ≤ y)) = [] := by
          rw [List.filter_eq_nil_iff]
          intro b hb
          rcases List.mem_cons.mp hb with rfl | hb
          · simp [hay]
          · simp [not_le.mpr (lt_of_lt_of_le hya (hfa b hb))]
        rw [hc2, hf]
        simp

/-- The date-window slice of a sorted existing pool is the sublist of
entries dated within `[date - window, date + window]`. -/
theorem entries_date_window_iterator_eq_filter (existing : List Entry)
    (window date : Int)
    (hs : existing.Pairwise (fun a b => a.date ≤ b.date)) (hw : 0 ≤ window) :
    entries_date_window_iterator existing window date
      = existing.filter
          (fun e => decide (date - window ≤ e.date) &&
            decide (e.date ≤ date + window)) := by
  have hxy : date - window ≤ date + window := by omega
  have h := sorted_slice_eq_filter (date - window) (date + window) hxy
    existing hs
  simpa [entries_date_window_iterator, bisect_left, bisect_right,
    List.countP_map, Function.comp] using h

/-- Claim C4: the candidate window is inclusive on both ends — given the
existing pool is sorted by date and the window is nonnegative, an
existing entry appears in the window slice around `date` exactly when its
date lies in `[date - window, date + window]`; in particular an entry
dated exactly `window` days away is included, and one dated exactly
`window + 1` days away is excluded. -/
theorem window_inclusive_boundaries (existing : List Entry)
    (window date : Int)
    (hs : existing.Pairwise (fun a b => a.date ≤ b.date)) (hw : 0 ≤ window)
    (t : Entry) :
    t ∈ entries_date_window_iterator existing window date ↔
      t ∈ existing ∧ date - window ≤ t.date ∧ t.date ≤ date + window := by
  rw [entries_date_window_iterator_eq_filter existing window date hs hw,
    List.mem_filter]
  simp [and_assoc]

/-- Witness for `window_inclusive_boundaries`: around date `10` with the
default two-day window, the sorted pool `[8, 10, 13]` yields a slice
containing the entry dated `8` (exactly `W` days away) and excluding the
entry dated `13` (exactly `W + 1` days away). -/
theorem window_inclusive_boundaries_witness :
    (⟨8, 0⟩ : Entry) ∈
        entries_date_window_iterator [⟨8, 0⟩, ⟨10, 1⟩, ⟨13, 2⟩] 2 10 ∧
    (⟨13, 2⟩ : Entry) ∉
        entries_date_window_iterator [⟨8, 0⟩, ⟨10, 1⟩, ⟨13, 2⟩] 2 10 := by
  constructor
  · exact (window_inclusive_boundaries [⟨8, 0⟩, ⟨10, 1⟩, ⟨13, 2⟩] 2 10
      (by decide) (by decide) ⟨8, 0⟩).mpr (by decide)
  · intro h
    exact absurd ((window_inclusive_boundaries [⟨8, 0⟩, ⟨10, 1⟩, ⟨13, 2⟩] 2 10
      (by decide) (by decide) ⟨13, 2⟩).mp h) (by decide)

end Beangulp.Extract

namespace Beangulp.Extract

theorem writeStore_same (store : MetaStore) (r : Nat) (m : Meta) :
    writeStore store r m r = m := by
  simp [writeStore]

theorem writeStore_other (store : MetaStore) (r q : Nat) (m : Meta)
    (h : q ≠ r) : writeStore store r m q = store q := by
  simp [writeStore, h]

/-- Re-assigning the same key overwrites the earlier assignment. -/
theorem setKey_setKey (m : Meta) (k : String) (v v' : MetaVal) :
    setKey (setKey m k v) k v' = setKey m k v' := by
  induction m with
  | nil => simp [setKey]
  | cons p rest ih =>
    obtain ⟨k0, v0⟩ := p
    by_cases h : k0 = k
    · simp [setKey, h]
    · simp [setKey, h, ih]

/-- The inner loop over one entry's window writes only that entry's
metadata dict. -/
theorem foldl_mark_target_ne (compare : Entry → Entry → Bool) (e : Entry)
    (r : Nat) (hr : r ≠ e.metaRef) :
    ∀ (targets : List Entry) (st : MetaStore),
      (targets.foldl (mark_target_step compare e) st) r = st r
  | [], st => rfl
  | t :: ts, st => by
    rw [List.foldl_cons, foldl_mark_target_ne compare e r hr ts]
    unfold mark_target_step
    by_cases h : compare e t
    · rw [if_pos h, writeStore_other _ _ _ _ hr]
    · rw [if_neg h]

/-- The outer loop leaves every metadata dict not belonging to one of the
newly extracted entries untouched. -/
theorem foldl_mark_entry_ne (existingSorted : List Entry) (window : Int)
    (compare : Entry → Entry → Bool) (r : Nat) :
    ∀ (entries : List Entry) (st : MetaStore),
      r ∉ entries.map (·.metaRef) →
      (entries.foldl (mark_entry_step existingSorted window compare) st) r
        = st r
  | [], st, _ => rfl
  | e :: es, st, hr => by
    have hre : r ≠ e.metaRef := by
      intro h
      exact hr (by simp [h])
    have hres : r ∉ es.map (·.metaRef) := by
      intro h
      exact hr (by simp [h])
    rw [List.foldl_cons,
      foldl_mark_entry_ne existingSorted window compare r es _ hres]
    exact foldl_mark_target_ne compare e r hre _ st

/-- Claim C2 (amended): `mark_duplicate_entries` mutates in place, but
only on its own batch — the metadata dict of any entry outside the newly
extracted batch (in particular of every existing-ledger entry) is left
exactly as it was, and the caller's `existing` list is replaced by a
permutation of itself (sorted by date; nothing is appended to it or
dropped from it). -/
theorem mark_duplicate_entries_frame (entries existing : List Entry)
    (window : Int) (compare : Entry → Entry → Bool) (store : MetaStore) :
    (∀ r, r ∉ entries.map (·.metaRef) →
        (mark_duplicate_entries entries existing window compare store).1 r
          = store r) ∧
    (mark_duplicate_entries entries existing window compare store).2.Perm
      existing := by
  constructor
  · intro r hr
    exact foldl_mark_entry_ne _ window compare r entries store hr
  · exact List.perm_insertionSort dateLE existing

/-- Witness for `mark_duplicate_entries_frame`: a metadata dict (`99`)
not belonging to the extracted batch is untouched, and the caller's
existing list is permuted. -/
theorem mark_duplicate_entries_frame_witness :
    (mark_duplicate_entries [⟨5, 0⟩] [⟨6, 1⟩, ⟨4, 2⟩] 2 (fun _ _ => true)
        (fun _ => [])).1 99 = [] ∧
    (mark_duplicate_entries [⟨5, 0⟩] [⟨6, 1⟩, ⟨4, 2⟩] 2 (fun _ _ => true)
        (fun _ => [])).2.Perm [⟨6, 1⟩, ⟨4, 2⟩] :=
  ⟨(mark_duplicate_entries_frame [⟨5, 0⟩] [⟨6, 1⟩, ⟨4, 2⟩] 2
      (fun _ _ => true) (fun _ => [])).1 99 (by decide),
    (mark_duplicate_entries_frame [⟨5, 0⟩] [⟨6, 1⟩, ⟨4, 2⟩] 2
      (fun _ _ => true) (fun _ => [])).2⟩

/-- Counterexample to claim C2 as stated: marking does not produce a new
entry value — it mutates the entry's metadata dict in place (the dict
with identity `0`, empty before the call, holds the duplicate marker
after it), and the caller-supplied existing list is not merely read: it
is reordered in place by the sort. -/
theorem caller_data_mutated_counterexample :
    (mark_duplicate_entries [⟨5, 0⟩] [⟨6, 1⟩, ⟨4, 2⟩] 2 (fun _ _ => true)
        (fun _ => [])).1 0 ≠ (fun _ => ([] : Meta)) 0 ∧
    (mark_duplicate_entries [⟨5, 0⟩] [⟨6, 1⟩, ⟨4, 2⟩] 2 (fun _ _ => true)
        (fun _ => [])).1 0 = [(DUPLICATE, MetaVal.entryRef 1)] ∧
    (mark_duplicate_entries [⟨5, 0⟩] [⟨6, 1⟩, ⟨4, 2⟩] 2 (fun _ _ => true)
        (fun _ => [])).2 ≠ [⟨6, 1⟩, ⟨4, 2⟩] := by
  refine ⟨?_, ?_, ?_⟩ <;> decide

/-- The inner loop over one entry's window, seen at that entry's own
metadata dict: each match overwrites the `__duplicate__` field, so the
final value records the last matching target. -/
theorem foldl_mark_target_own (compare : Entry → Entry → Bool) (e : Entry) :
    ∀ (targets : List Entry) (st : MetaStore),
      (targets.foldl (mark_target_step compare e) st) e.metaRef =
        match (targets.filter (compare e)).getLast? with
        | some target =>
            setKey (st e.metaRef) DUPLICATE (.entryRef target.metaRef)
        | none => st e.metaRef
  | [], st => rfl
  | t :: ts, st => by
    rw [List.foldl_cons]
    by_cases h : compare e t
    · rw [List.filter_cons_of_pos h]
      have hstep : mark_target_step compare e st t =
          writeStore st e.metaRef
            (setKey (st e.metaRef) DUPLICATE (.entryRef t.metaRef)) := by
        unfold mark_target_step
        rw [if_pos h]
      rw [hstep, foldl_mark_target_own compare e ts]
      cases hlast : (ts.filter (compare e)).getLast? with
      | none =>
        have hnil : ts.filter (compare e) = [] :=
          List.getLast?_eq_none_iff.mp hlast
        rw [hnil]
        simp [writeStore_same]
      | some target =>
        obtain ⟨x, xs, hxx⟩ : ∃ x xs, ts.filter (compare e) = x :: xs := by
          cases hf : ts.filter (compare e) with
          | nil => rw [hf] at hlast; cases hlast
          | cons x xs => exact ⟨x, xs, rfl⟩
        rw [hxx] at hlast
        rw [hxx, List.getLast?_cons_cons, hlast, writeStore_same]
        simp [setKey_setKey]
    · rw [List.filter_cons_of_neg h]
      have hstep : mark_target_step compare e st t = st := by
        unfold mark_target_step
        rw [if_neg h]
      rw [hstep, foldl_mark_target_own compare e ts]

/-- The outer loop, seen at the metadata dict of one of the extracted
entries: the dict's final value is determined by that entry's own inner
loop, run on the store as it was when the entry's turn came (which, with
unaliased dicts, equals the initial store at that dict). -/
theorem foldl_mark_entry_own (sorted : List Entry) (window : Int)
    (compare : Entry → Entry → Bool) (e : Entry) :
    ∀ (entries : List Entry) (store : MetaStore), e ∈ entries →
      (entries.map (·.metaRef)).Nodup →
      (entries.foldl (mark_entry_step sorted window compare) store)
          e.metaRef =
        match ((entries_date_window_iterator sorted window e.date).filter
            (compare e)).getLast? with
        | some target =>
            setKey (store e.metaRef) DUPLICATE (.entryRef target.metaRef)
        | none => store e.metaRef
  | [], _, he, _ => absurd he (List.not_mem_nil e)
  | a :: es, store, he, hnd => by
    have hnd' : (es.map (·.metaRef)).Nodup := (List.nodup_cons.mp hnd).2
    have hna : a.metaRef ∉ es.map (·.metaRef) := (List.nodup_cons.mp hnd).1
    rcases List.mem_cons.mp he with rfl | hees
    · rw [List.foldl_cons,
        foldl_mark_entry_ne sorted window compare e.metaRef es _ hna]
      exact foldl_mark_target_own compare e _ store
    · have hne : e.metaRef ≠ a.metaRef := by
        intro h
        exact hna (h ▸ List.mem_map_of_mem (·.metaRef) hees)
      rw [List.foldl_cons,
        foldl_mark_entry_own sorted window compare e es _ hees hnd']
      have hfirst : mark_entry_step sorted window compare store a e.metaRef
          = store e.metaRef :=
        foldl_mark_target_ne compare a e.metaRef hne _ store
      rw [hfirst]

/-- Claim C3 (amended): the duplicate search does not stop at the first
match — for an extracted entry (whose metadata dict is not shared with
another entry of the batch), every existing transaction in its date
window is compared, and the `__duplicate__` field ends up recording the
last matching existing entry of the window (or the dict is untouched when
nothing matches). -/
theorem mark_duplicate_entries_last_match (entries existing : List Entry)
    (window : Int) (compare : Entry → Entry → Bool) (store : MetaStore)
    (e : Entry) (he : e ∈ entries)
    (hnd : (entries.map (·.metaRef)).Nodup) :
    (mark_duplicate_entries entries existing window compare store).1
        e.metaRef =
      match ((entries_date_window_iterator (sort_by_date existing) window
          e.date).filter (compare e)).getLast? with
      | some target =>
          setKey (store e.metaRef) DUPLICATE (.entryRef target.metaRef)
      | none => store e.metaRef :=
  foldl_mark_entry_own (sort_by_date existing) window compare e entries
    store he hnd

/-- Witness for `mark_duplicate_entries_last_match`: both existing
entries (dicts `1` and `2`) match; the recorded duplicate target is the
dict `2` of the later one. -/
theorem mark_duplicate_entries_last_match_witness :
    (mark_duplicate_entries [⟨5, 0⟩] [⟨3, 1⟩, ⟨5, 2⟩] 2 (fun _ _ => true)
        (fun _ => [])).1 0 = [(DUPLICATE, MetaVal.entryRef 2)] := by
  rw [mark_duplicate_entries_last_match [⟨5, 0⟩] [⟨3, 1⟩, ⟨5, 2⟩] 2
    (fun _ _ => true) (fun _ => []) ⟨5, 0⟩ (by decide) (by decide)]
  decide

/-- Counterexample to claim C3 as stated: with two matching existing
transactions in the window, the first matching existing entry is the one
with dict `1`, but the mark records the one with dict `2` — the last
match, not the first. -/
theorem first_match_counterexample :
    ((entries_date_window_iterator (sort_by_date [⟨4, 1⟩, ⟨5, 2⟩]) 2 5).filter
        ((fun _ _ => true) (⟨5, 0⟩ : Entry))).head? = some ⟨4, 1⟩ ∧
    (mark_duplicate_entries [⟨5, 0⟩] [⟨4, 1⟩, ⟨5, 2⟩] 2 (fun _ _ => true)
        (fun _ => [])).1 0 = [(DUPLICATE, MetaVal.entryRef 2)] := by
  constructor <;> decide

end Beangulp.Extract

namespace Beangulp

/-! ## Lexicographic tuple comparison

Python compares tuples lexicographically; `lexLE` is the generic
``strict-on-the-head`` lexicographic order combinator used to model the
comparison of sort keys. -/

/-- Lexicographic comparison of a pair: strictly smaller first component,
or equal first components and `leB`-related second components. -/
def lexLE (ltA : α → α → Prop) (leB : β → β → Prop) (x y : α × β) : Prop :=
  ltA x.1 y.1 ∨ (x.1 = y.1 ∧ leB x.2 y.2)

instance (ltA : α → α → Prop) (leB : β → β → Prop) [DecidableRel ltA]
    [DecidableRel leB] [DecidableEq α] : DecidableRel (lexLE ltA leB) :=
  fun x y => by
    unfold lexLE; infer_instance

theorem lexLE_total (ltA : α → α → Prop) (leB : β → β → Prop)
    (htri : ∀ a b, ltA a b ∨ a = b ∨ ltA b a)
    (htot : ∀ x y, leB x y ∨ leB y x) (x y : α × β) :
    lexLE ltA leB x y ∨ lexLE ltA leB y x := by
  rcases htri x.1 y.1 with h | h | h
  · exact Or.inl (Or.inl h)
  · rcases htot x.2 y.2 with h2 | h2
    · exact Or.inl (Or.inr ⟨h, h2⟩)
    · exact Or.inr (Or.inr ⟨h.symm, h2⟩)
  · exact Or.inr (Or.inl h)

theorem lexLE_trans (ltA : α → α → Prop) (leB : β → β → Prop)
    (htrans : ∀ a b c, ltA a b → ltA b c → ltA a c)
    (htransB : ∀ a b c, leB a b → leB b c → leB a c) (x y z : α × β)
    (h₁ : lexLE ltA leB x y) (h₂ : lexLE ltA leB y z) :
    lexLE ltA leB x z := by
  rcases h₁ with h₁ | ⟨e₁, h₁⟩
  · rcases h₂ with h₂ | ⟨e₂, _⟩
    · exact Or.inl (htrans _ _ _ h₁ h₂)
    · exact Or.inl (e₂ ▸ h₁)
  · rcases h₂ with h₂ | ⟨e₂, h₂⟩
    · exact Or.inl (e₁ ▸ h₂)
    · exact Or.inr ⟨e₁.trans e₂, htransB _ _ _ h₁ h₂⟩

/-- Non-strict string comparison. -/
def strLE (a b : String) : Prop := strLT a b ∨ a = b

instance : DecidableRel strLE := fun a b => by
  unfold strLE; infer_instance

theorem strLE_total (a b : String) : strLE a b ∨ strLE b a := by
  rcases strLT_trichotomy a b with h | h | h
  · exact Or.inl (Or.inl h)
  · exact Or.inl (Or.inr h)
  · exact Or.inr (Or.inl h)

theorem strLE_trans (a b c : String) (h₁ : strLE a b) (h₂ : strLE b c) :
    strLE a c := by
  rcases h₁ with h₁ | rfl
  · rcases h₂ with h₂ | rfl
    · exact Or.inl (strLT_trans h₁ h₂)
    · exact Or.inl h₁
  · exact h₂

end Beangulp

namespace Beangulp.Extract

/-! ## Batch ordering — `beangulp/extract.py`, `sort_extracted_entries`

A batch is one `(filename, entries, account, importer)` tuple of the
`extracted` list; the importer object is opaque to the sort and is
modelled by an identity. -/

structure Batch where
  filename : String
  entries : List Entry
  account : String
  importer : Nat
deriving DecidableEq

/-- `datetime.date(9999, 1, 1).toordinal()`, the sentinel date assigned
to batches with no entries. -/
def date_9999_1_1 : Int := 3651695

/--
```python
def key(element):
    filename, entries, account, importer = element
    dates = [entry.date for entry in entries]
    # Sort documents that do not contain any entry last.
    max_date = min_date = datetime.date(9999, 1, 1)
    if dates:
        max_date, min_date = max(dates), min(dates)
    return max_date, account, min_date, filename
```
-/
def sort_key (element : Batch) : Int × String × Int × String :=
  match element.entries.map (·.date) with
  | [] => (date_9999_1_1, element.account, date_9999_1_1, element.filename)
  | d :: ds => (ds.foldl max d, element.account, ds.foldl min d,
      element.filename)

/-- Python's `<=` on the 4-tuples returned by `key`: lexicographic, with
dates compared as integers and account and filename compared as
strings. -/
def keyLE4 : (Int × String × Int × String) → (Int × String × Int × String)
    → Prop :=
  lexLE (· < ·) (lexLE strLT (lexLE (· < ·) strLE))

instance : DecidableRel keyLE4 := fun x y => by
  unfold keyLE4; infer_instance

/-- The batch order of `extracted.sort(key=key)`. -/
def batchLE (x y : Batch) : Prop := keyLE4 (sort_key x) (sort_key y)

instance : DecidableRel batchLE := fun x y => by
  unfold batchLE; infer_instance

instance : IsTotal Batch batchLE where
  total x y := by
    unfold batchLE keyLE4
    refine lexLE_total _ _ (fun a b => lt_trichotomy a b) ?_ _ _
    intro u v
    refine lexLE_total _ _ strLT_trichotomy ?_ _ _
    intro p q
    exact lexLE_total _ _ (fun a b => lt_trichotomy a b) strLE_total p q

instance : IsTrans Batch batchLE where
  trans x y z h₁ h₂ := by
    unfold batchLE keyLE4 at h₁ h₂ ⊢
    refine lexLE_trans (fun a b : Int => a < b)
      (lexLE strLT (lexLE (fun a b : Int => a < b) strLE))
      (fun _ _ _ ha hb => lt_trans ha hb) ?_ _ _ _ h₁ h₂
    intro u v w hu hv
    refine lexLE_trans strLT (lexLE (fun a b : Int => a < b) strLE)
      (fun _ _ _ ha hb => strLT_trans ha hb) ?_ _ _ _ hu hv
    intro p q r hp hq
    exact lexLE_trans (fun a b : Int => a < b) strLE
      (fun _ _ _ ha hb => lt_trans ha hb)
      (fun _ _ _ ha hb => strLE_trans _ _ _ ha hb) _ _ _ hp hq

/-- `extracted.sort(key=key)`: Python's stable in-place sort, modelled by
stable insertion sort; the function value is the new contents of the
caller's list. -/
def sort_extracted_entries (extracted : List Batch) : List Batch :=
  List.insertionSort batchLE extracted

/-- A fold of `max` over dates all below a bound stays below it. -/
theorem foldl_max_lt (c : Int) :
    ∀ (ds : List Int) (d : Int), d < c → (∀ x ∈ ds, x < c) →
      ds.foldl max d < c
  | [], d, hd, _ => hd
  | x :: ds, d, hd, hds => by
    rw [List.foldl_cons]
    exact foldl_max_lt c ds (max d x)
      (max_lt hd (hds x (List.mem_cons_self x ds)))
      (fun z hz => hds z (List.mem_cons_of_mem x hz))

/-- Claim C8: `sort_extracted_entries` replaces the batch list with a
permutation of itself that is sorted ascending by the composite key
`(max entry date, account, min entry date, document filename)`; a batch
with zero entries takes the sentinel date `9999-01-01` as both max and
min date, and consequently sorts strictly after every batch of the same
account whose entries are all dated before the sentinel.  Ties beyond the
full key are broken by the stability of the sort, and the filename
component makes the key deterministic per document. -/
theorem sort_extracted_entries_spec (extracted : List Batch) :
    (sort_extracted_entries extracted).Perm extracted ∧
    List.Sorted batchLE (sort_extracted_entries extracted) ∧
    (∀ b : Batch, b.entries = [] →
      sort_key b = (date_9999_1_1, b.account, date_9999_1_1, b.filename)) ∧
    (∀ b1 b2 : Batch, b1.account = b2.account → b1.entries ≠ [] →
      b2.entries = [] → (∀ e ∈ b1.entries, e.date < date_9999_1_1) →
      batchLE b1 b2 ∧ ¬ batchLE b2 b1) := by
  refine ⟨List.perm_insertionSort batchLE extracted,
    List.sorted_insertionSort batchLE extracted, ?_, ?_⟩
  · intro b hb
    unfold sort_key
    rw [hb]
    rfl
  · intro b1 b2 hacct h1 h2 hdates
    obtain ⟨e, es, hes⟩ : ∃ e es, b1.entries = e :: es := by
      cases h : b1.entries with
      | nil => exact absurd h h1
      | cons e es => exact ⟨e, es, rfl⟩
    have hmax : (es.map (·.date)).foldl max e.date < date_9999_1_1 := by
      refine foldl_max_lt date_9999_1_1 (es.map (·.date)) e.date ?_ ?_
      · exact hdates e (by rw [hes]; exact List.mem_cons_self e es)
      · intro x hx
        obtain ⟨a, ha, rfl⟩ := List.mem_map.mp hx
        exact hdates a (by rw [hes]; exact List.mem_cons_of_mem e ha)
    have hk1 : (sort_key b1).1 = (es.map (·.date)).foldl max e.date := by
      unfold sort_key
      rw [hes]
      rfl
    have hk2 : (sort_key b2).1 = date_9999_1_1 := by
      unfold sort_key
      rw [h2]
      rfl
    constructor
    · exact Or.inl (by rw [hk1, hk2]; exact hmax)
    · rintro (hlt | ⟨heq, -⟩)
      · rw [hk1, hk2] at hlt
        exact absurd (lt_trans hlt hmax) (lt_irrefl _)
      · rw [hk1, hk2] at heq
        exact absurd hmax (by rw [← heq]; exact lt_irrefl _)

/-- Witness for `sort_extracted_entries_spec` on a two-batch list: the
empty batch sorts after the nonempty batch of the same account. -/
theorem sort_extracted_entries_spec_witness :
    (sort_extracted_entries
        [⟨"b.pdf", [], "Assets:Bank", 1⟩,
         ⟨"a.csv", [⟨10, 0⟩, ⟨12, 1⟩], "Assets:Bank", 0⟩]).Perm
      [⟨"b.pdf", [], "Assets:Bank", 1⟩,
       ⟨"a.csv", [⟨10, 0⟩, ⟨12, 1⟩], "Assets:Bank", 0⟩] ∧
    List.Sorted batchLE
      (sort_extracted_entries
        [⟨"b.pdf", [], "Assets:Bank", 1⟩,
         ⟨"a.csv", [⟨10, 0⟩, ⟨12, 1⟩], "Assets:Bank", 0⟩]) ∧
    sort_key ⟨"b.pdf", [], "Assets:Bank", 1⟩
      = (date_9999_1_1, "Assets:Bank", date_9999_1_1, "b.pdf") ∧
    (batchLE ⟨"a.csv", [⟨10, 0⟩, ⟨12, 1⟩], "Assets:Bank", 0⟩
        ⟨"b.pdf", [], "Assets:Bank", 1⟩ ∧
      ¬ batchLE ⟨"b.pdf", [], "Assets:Bank", 1⟩
        ⟨"a.csv", [⟨10, 0⟩, ⟨12, 1⟩], "Assets:Bank", 0⟩) := by
  have h := sort_extracted_entries_spec
    [⟨"b.pdf", [], "Assets:Bank", 1⟩,
     ⟨"a.csv", [⟨10, 0⟩, ⟨12, 1⟩], "Assets:Bank", 0⟩]
  refine ⟨h.1, h.2.1, h.2.2.1 _ rfl, h.2.2.2 _ _ rfl ?_ rfl ?_⟩
  · decide
  · decide

end Beangulp.Extract

namespace Beangulp.Extract

/-! ## Serialization — `beangulp/extract.py`, `print_extracted_entries`

```python
def print_extracted_entries(extracted, output):
    if extracted and HEADER:
        output.write(HEADER + chr(10))

    for filepath, entries, account, importer in extracted:
        output.write(SECTION.format(filepath) + chr(10) + chr(10))

        for entry in entries:
            duplicate = entry.meta.pop(DUPLICATE, False)
            string = printer.format_entry(entry)
            if duplicate:
                if isinstance(duplicate, type(entry)):
                    filename = duplicate.meta.get('filename')
                    lineno = duplicate.meta.get('lineno')
                    if filename and lineno:
                        output.write(...)
                string = textwrap.indent(string, '; ')
            output.write(string)
            output.write(chr(10))

        output.write(chr(10))
```

The output is modelled as the list of strings passed to `output.write`.
`printer.format_entry` (from beancount, outside this repository) renders
an entry from its fields and its current metadata dict; it is an opaque
parameter of the model.  The metadata store threads through, so the pop
is an observable mutation. -/

/-- The module constant `HEADER` (overridable in import scripts; the
module default is nonempty, which is all the header logic observes). -/
def HEADER : String := ";; -*- mode: beancount -*-" ++ "\n"

/-- `SECTION.format(filepath)` with the module's format. -/
def SECTION (filepath : String) : String := "**** " ++ filepath

/-- Python truthiness of a metadata value (`if duplicate:`,
`if filename and lineno:`). -/
def MetaVal.truthy : MetaVal → Bool
  | .boolean b => b
  | .entryRef _ => true
  | .str s => decide (s ≠ "")
  | .int i => decide (i ≠ 0)

/-- How an f-string renders a metadata value. -/
def MetaVal.render : MetaVal → String
  | .boolean b => if b then "True" else "False"
  | .entryRef r => toString r
  | .str s => s
  | .int i => toString i

/-- `textwrap.indent(string, '; ')`: prefix every line holding
non-whitespace with `"; "`. -/
def indent_comment (s : String) : String :=
  String.intercalate "\n"
    ((s.splitOn "\n").map (fun line =>
      if line.all (fun c => c.isWhitespace) then line else "; " ++ line))

/-- The body of the inner loop: print one entry, popping its duplicate
marker first. -/
def print_entry (format : Entry → Meta → String)
    (acc : MetaStore × List String) (entry : Entry) :
    MetaStore × List String :=
  let meta := acc.1 entry.metaRef
  let duplicate := (getKey? meta DUPLICATE).getD (.boolean false)
  let meta2 := delKey meta DUPLICATE
  let store2 := writeStore acc.1 entry.metaRef meta2
  let string := format entry meta2
  let prov : List String :=
    if duplicate.truthy then
      match duplicate with
      | .entryRef r =>
        match getKey? (store2 r) "filename", getKey? (store2 r) "lineno" with
        | some fn, some ln =>
          if fn.truthy && ln.truthy then
            ["; duplicate of " ++ fn.render ++ ":" ++ ln.render ++ "\n"]
          else []
        | _, _ => []
      | _ => []
    else []
  let string2 := if duplicate.truthy then indent_comment string else string
  (store2, acc.2 ++ prov ++ [string2, "\n"])

/-- The body of the outer loop: one batch section. -/
def print_batch (format : Entry → Meta → String)
    (acc : MetaStore × List String) (batch : Batch) :
    MetaStore × List String :=
  let acc2 := (acc.1, acc.2 ++ [SECTION batch.filename ++ "\n\n"])
  let acc3 := batch.entries.foldl (print_entry format) acc2
  (acc3.1, acc3.2 ++ ["\n"])

/-- `print_extracted_entries`, returning the final metadata store and the
sequence of chunks written to the output. -/
def print_extracted_entries (extracted : List Batch)
    (format : Entry → Meta → String) (store : MetaStore) :
    MetaStore × List String :=
  let initial : List String :=
    if extracted ≠ [] ∧ HEADER ≠ "" then [HEADER ++ "\n"] else []
  extracted.foldl (print_batch format) (store, initial)

/-- Folding an output-monotone step only appends to the output. -/
theorem foldl_out_mono {γ : Type}
    (f : (MetaStore × List String) → γ → (MetaStore × List String))
    (hf : ∀ acc x, ∃ c, (f acc x).2 = acc.2 ++ c) :
    ∀ (l : List γ) (acc : MetaStore × List String),
      ∃ c, (l.foldl f acc).2 = acc.2 ++ c
  | [], acc => ⟨[], (List.append_nil _).symm⟩
  | x :: l, acc => by
    obtain ⟨c1, h1⟩ := hf acc x
    obtain ⟨c2, h2⟩ := foldl_out_mono f hf l (f acc x)
    exact ⟨c1 ++ c2, by rw [List.foldl_cons, h2, h1, List.append_assoc]⟩

theorem exists_append_chunks (out p q : List String) :
    ∃ c, out ++ p ++ q = out ++ c :=
  ⟨p ++ q, by rw [List.append_assoc]⟩

theorem print_entry_out_mono (format : Entry → Meta → String)
    (acc : MetaStore × List String) (e : Entry) :
    ∃ c, (print_entry format acc e).2 = acc.2 ++ c :=
  exists_append_chunks acc.2 _ _

theorem print_batch_out_mono (format : Entry → Meta → String)
    (acc : MetaStore × List String) (b : Batch) :
    ∃ c, (print_batch format acc b).2 = acc.2 ++ c := by
  obtain ⟨c, hc⟩ := foldl_out_mono (print_entry format)
    (print_entry_out_mono format) b.entries
    (acc.1, acc.2 ++ [SECTION b.filename ++ "\n\n"])
  refine ⟨[SECTION b.filename ++ "\n\n"] ++ c ++ ["\n"], ?_⟩
  show (b.entries.foldl (print_entry format)
      (acc.1, acc.2 ++ [SECTION b.filename ++ "\n\n"])).2 ++ ["\n"] = _
  rw [hc]
  simp [List.append_assoc]

/-- Claim C9 (amended): the serializer emits the global header exactly
when the batch list is nonempty — the first chunk written is the header
iff `extracted` holds at least one batch, even a batch with zero entries;
with no batches at all, nothing is written. -/
theorem print_header_iff_batches (extracted : List Batch)
    (format : Entry → Meta → String) (store : MetaStore) :
    (print_extracted_entries extracted format store).2.head? =
      if extracted.isEmpty then none else some (HEADER ++ "\n") := by
  cases extracted with
  | nil =>
    simp [print_extracted_entries]
  | cons b bs =>
    have hinit : (if (b :: bs) ≠ [] ∧ HEADER ≠ ""
        then [HEADER ++ "\n"] else ([] : List String)) = [HEADER ++ "\n"] := by
      rw [if_pos]
      exact ⟨by simp, by decide⟩
    obtain ⟨c, hc⟩ := foldl_out_mono (print_batch format)
      (print_batch_out_mono format) (b :: bs)
      (store, if (b :: bs) ≠ [] ∧ HEADER ≠ "" then [HEADER ++ "\n"] else [])
    show ((b :: bs).foldl (print_batch format)
        (store, if (b :: bs) ≠ [] ∧ HEADER ≠ ""
          then [HEADER ++ "\n"] else [])).2.head? = _
    rw [hc]
    simp only [hinit]
    rfl

/-- Counterexample to claim C9 as stated: a batch list whose single
batch has zero entries — no entry exists across all batches — still gets
the global header as its first output chunk. -/
theorem header_on_empty_batches_counterexample :
    ([⟨"empty.pdf", [], "Assets", 0⟩] : List Batch).map (·.entries)
        = [[]] ∧
    (print_extracted_entries [⟨"empty.pdf", [], "Assets", 0⟩]
        (fun _ _ => "") (fun _ => [])).2.head? = some (HEADER ++ "\n") := by
  constructor
  · rfl
  · rw [print_header_iff_batches]
    rfl

end Beangulp.Extract

namespace Beangulp.Extract

/-- After deleting a key, looking it up yields nothing. -/
theorem getKey?_delKey (m : Meta) (k : String) :
    getKey? (delKey m k) k = none := by
  induction m with
  | nil => rfl
  | cons p rest ih =>
    by_cases h : p.1 = k
    · have hstep : delKey (p :: rest) k = delKey rest k := by
        simp [delKey, List.filter_cons, h]
      rw [hstep]
      exact ih
    · have hstep : delKey (p :: rest) k = p :: delKey rest k := by
        simp [delKey, List.filter_cons, h]
      rw [hstep]
      simp only [getKey?] at ih ⊢
      rw [List.find?_cons_of_neg _ (by simpa using h)]
      exact ih

/-- Printing an entry preserves the absence of the duplicate marker in
any metadata dict: every store write is a dict with the marker
removed. -/
theorem print_entry_clean_preserve (format : Entry → Meta → String)
    (acc : MetaStore × List String) (e : Entry) (r : Nat)
    (h : getKey? (acc.1 r) DUPLICATE = none) :
    getKey? ((print_entry format acc e).1 r) DUPLICATE = none := by
  show getKey?
    (writeStore acc.1 e.metaRef (delKey (acc.1 e.metaRef) DUPLICATE) r)
    DUPLICATE = none
  by_cases hr : r = e.metaRef
  · subst hr
    rw [writeStore_same]
    exact getKey?_delKey _ _
  · rw [writeStore_other _ _ _ _ hr]
    exact h

/-- Printing an entry leaves that entry's own metadata dict without the
duplicate marker. -/
theorem print_entry_clean_self (format : Entry → Meta → String)
    (acc : MetaStore × List String) (e : Entry) :
    getKey? ((print_entry format acc e).1 e.metaRef) DUPLICATE = none := by
  show getKey?
    (writeStore acc.1 e.metaRef (delKey (acc.1 e.metaRef) DUPLICATE)
      e.metaRef) DUPLICATE = none
  rw [writeStore_same]
  exact getKey?_delKey _ _

theorem foldl_print_entry_clean_preserve (format : Entry → Meta → String)
    (r : Nat) :
    ∀ (l : List Entry) (acc : MetaStore × List String),
      getKey? (acc.1 r) DUPLICATE = none →
      getKey? ((l.foldl (print_entry format) acc).1 r) DUPLICATE = none
  | [], _, h => h
  | e :: l, acc, h => by
    rw [List.foldl_cons]
    exact foldl_print_entry_clean_preserve format r l _
      (print_entry_clean_preserve format acc e r h)

theorem foldl_print_entry_clean_mem (format : Entry → Meta → String)
    (e : Entry) :
    ∀ (l : List Entry) (acc : MetaStore × List String), e ∈ l →
      getKey? ((l.foldl (print_entry format) acc).1 e.metaRef) DUPLICATE
        = none
  | [], _, he => absurd he (List.not_mem_nil e)
  | a :: l, acc, he => by
    rw [List.foldl_cons]
    rcases List.mem_cons.mp he with rfl | hel
    · by_cases hl : e ∈ l
      · exact foldl_print_entry_clean_mem format e l _ hl
      · exact foldl_print_entry_clean_preserve format e.metaRef l _
          (print_entry_clean_self format acc e)
    · exact foldl_print_entry_clean_mem format e l _ hel

theorem print_batch_clean_preserve (format : Entry → Meta → String)
    (acc : MetaStore × List String) (b : Batch) (r : Nat)
    (h : getKey? (acc.1 r) DUPLICATE = none) :
    getKey? ((print_batch format acc b).1 r) DUPLICATE = none :=
  foldl_print_entry_clean_preserve format r b.entries
    (acc.1, acc.2 ++ [SECTION b.filename ++ "\n\n"]) h

theorem print_batch_clean_mem (format : Entry → Meta → String)
    (acc : MetaStore × List String) (b : Batch) (e : Entry)
    (he : e ∈ b.entries) :
    getKey? ((print_batch format acc b).1 e.metaRef) DUPLICATE = none :=
  foldl_print_entry_clean_mem format e b.entries
    (acc.1, acc.2 ++ [SECTION b.filename ++ "\n\n"]) he

theorem foldl_print_batch_clean_preserve (format : Entry → Meta → String)
    (r : Nat) :
    ∀ (l : List Batch) (acc : MetaStore × List String),
      getKey? (acc.1 r) DUPLICATE = none →
      getKey? ((l.foldl (print_batch format) acc).1 r) DUPLICATE = none
  | [], _, h => h
  | b :: l, acc, h => by
    rw [List.foldl_cons]
    exact foldl_print_batch_clean_preserve format r l _
      (print_batch_clean_preserve format acc b r h)

theorem foldl_print_batch_clean_mem (format : Entry → Meta → String)
    (e : Entry) :
    ∀ (l : List Batch) (acc : MetaStore × List String) (b : Batch),
      b ∈ l → e ∈ b.entries →
      getKey? ((l.foldl (print_batch format) acc).1 e.metaRef) DUPLICATE
        = none
  | [], _, _, hb, _ => absurd hb (List.not_mem_nil _)
  | a :: l, acc, b, hb, he => by
    rw [List.foldl_cons]
    rcases List.mem_cons.mp hb with rfl | hbl
    · exact foldl_print_batch_clean_preserve format e.metaRef l _
        (print_batch_clean_mem format acc b e he)
    · exact foldl_print_batch_clean_mem format e l _ b hbl he

/-- Claim C10: serialization pops the `__duplicate__` key from each
printed entry's metadata dict — the dict mutation is what
`entry.meta.pop(DUPLICATE, False)` performs before
`printer.format_entry(entry)` is called, so the marker never reaches the
renderer (in the model, `format` receives the already-popped dict by
construction of `print_entry`) — and after serialization no printed
entry's metadata dict contains the marker, making a second serialization
of the same entries print no duplicate comments. -/
theorem print_removes_duplicate_marker (extracted : List Batch)
    (format : Entry → Meta → String) (store : MetaStore) (b : Batch)
    (hb : b ∈ extracted) (e : Entry) (he : e ∈ b.entries) :
    getKey? ((print_extracted_entries extracted format store).1 e.metaRef)
      DUPLICATE = none :=
  foldl_print_batch_clean_mem format e extracted
    (store, if extracted ≠ [] ∧ HEADER ≠ "" then [HEADER ++ "\n"] else [])
    b hb he

/-- Witness for `print_removes_duplicate_marker`: an entry whose dict
holds the marker before printing has it removed by printing. -/
theorem print_removes_duplicate_marker_witness :
    getKey? ([(DUPLICATE, MetaVal.boolean true)] : Meta) DUPLICATE
        = some (MetaVal.boolean true) ∧
    getKey? ((print_extracted_entries [⟨"d.csv", [⟨0, 0⟩], "Assets", 0⟩]
        (fun _ _ => "") (fun _ => [(DUPLICATE, MetaVal.boolean true)])).1 0)
      DUPLICATE = none := by
  constructor
  · rfl
  · exact print_removes_duplicate_marker [⟨"d.csv", [⟨0, 0⟩], "Assets", 0⟩]
      (fun _ _ => "") (fun _ => [(DUPLICATE, MetaVal.boolean true)])
      ⟨"d.csv", [⟨0, 0⟩], "Assets", 0⟩ (by decide) ⟨0, 0⟩ (by decide)

end Beangulp.Extract
